import Mathlib

/-!
Verification of the live-md repository: a shallow embedding of the Hub
(`server.go`), the debouncing file watcher (`watcher.go`), the renderer
(`renderer.go`) and the `main` wiring, together with theorems settling
the specified behaviours against the code.
-/

namespace LiveMD

/-- The wire message of `server.go`: `Message{Filename, HTML, Error}`.
Zero-valued string fields model Go's zero values (empty strings). -/
structure Message where
  filename : String
  html : String
  error : String
deriving DecidableEq, Repr

/-- The state of one client's outbound Go channel (`Client.send`, a buffered
`chan []byte`): its capacity, buffered contents in FIFO order, whether
`close` has been called on it, and how many times `close` was called. -/
structure CState where
  cap : Nat
  buf : List Message
  closed : Bool
  closes : Nat
deriving DecidableEq, Repr

/-- The Hub's state (`server.go`): the client set `h.clients` (keys of the Go
map, modelled as a duplicate-free list of client identifiers), the queue
object of every client ever created (a client's channel outlives its map
membership), and `h.current`, the last stored message. -/
structure HubState where
  members : List Nat
  queues : List (Nat × CState)
  current : Message
deriving DecidableEq, Repr

/-- Look up a client's channel state by identifier. -/
def lookupQ : List (Nat × CState) → Nat → Option CState
  | [], _ => none
  | p :: ps, c => if p.1 = c then some p.2 else lookupQ ps c

/-- Apply `f` to the channel state stored under identifier `c`. -/
def updateQ : List (Nat × CState) → Nat → (CState → CState) → List (Nat × CState)
  | [], _, _ => []
  | p :: ps, c, f => (if p.1 = c then (c, f p.2) else p) :: updateQ ps c f

/-- Successful channel send: the message is appended at the back (Go channels
are FIFO). -/
def enqueueMsg (q : CState) (m : Message) : CState :=
  { q with buf := q.buf ++ [m] }

/-- `close(client.send)`: marks the channel closed and counts the close. -/
def closeQueue (q : CState) : CState :=
  { q with closed := true, closes := q.closes + 1 }

/-- One iteration of the broadcast loop body in `Hub.Run`
(`server.go:71-79`): a non-blocking `select` send to `client.send`; on the
`default` branch (channel buffer full) the channel is closed and the client
deleted from `h.clients`. -/
def sendOrEvict (st : HubState) (m : Message) (c : Nat) : HubState :=
  match lookupQ st.queues c with
  | none => st
  | some q =>
    if q.buf.length < q.cap then
      { st with queues := updateQ st.queues c (fun q0 => enqueueMsg q0 m) }
    else
      { st with members := st.members.erase c,
                queues := updateQ st.queues c closeQueue }

/-- The `case message := <-h.broadcast` arm of `Hub.Run`: iterate the client
set, attempting a non-blocking enqueue on each. -/
def hubBroadcast (st : HubState) (m : Message) : HubState :=
  st.members.foldl (fun s c => sendOrEvict s m c) st

/-- `handleWebSocket` creating a fresh client: `send: make(chan []byte, 256)`.
The new channel has capacity 256, empty buffer, and is open. -/
def newClient (st : HubState) (c : Nat) : HubState :=
  { st with queues := st.queues ++ [(c, ⟨256, [], false, 0⟩)] }

/-- The `case client := <-h.register` arm of `Hub.Run` (`server.go:56-63`):
`h.clients[client] = true`, then the current content is sent to the new
client's channel (the marshal of a `Message` cannot fail). -/
def hubRegister (st : HubState) (c : Nat) : HubState :=
  { st with members := st.members ++ [c],
            queues := updateQ st.queues c (fun q => enqueueMsg q st.current) }

/-- The `case client := <-h.unregister` arm of `Hub.Run` (`server.go:65-69`):
only if the client is currently in the map is it deleted and its channel
closed. -/
def hubUnregister (st : HubState) (c : Nat) : HubState :=
  if c ∈ st.members then
    { st with members := st.members.erase c,
              queues := updateQ st.queues c closeQueue }
  else st

/-- `Hub.SetContent` (`server.go:84-91`): store
`Message{Filename: filename, HTML: html}` as current, then broadcast it. -/
def setContent (st : HubState) (filename html : String) : HubState :=
  hubBroadcast { st with current := ⟨filename, html, ""⟩ } ⟨filename, html, ""⟩

/-- `Hub.SetError` (`server.go:93-100`): store `Message{Error: errMsg}`
(filename and HTML are Go zero values, i.e. empty) as current, then
broadcast it. -/
def setError (st : HubState) (e : String) : HubState :=
  hubBroadcast { st with current := ⟨"", "", e⟩ } ⟨"", "", e⟩

/-- `Renderer.Render` (`renderer.go:40-52`), parameterised by the outcome of
`os.ReadFile` and of `goldmark.Convert`. The Go pair `(string, error)` is
modelled as `String × Option String`; both failure paths return `""`. -/
def rendererRender (readRes : Except String String)
    (convert : String → Except String String) : String × Option String :=
  match readRes with
  | .error e => ("", some e)
  | .ok content =>
    match convert content with
    | .error e => ("", some e)
    | .ok htmlOut => (htmlOut, none)

/-- The `onChange` closure in `main`: on render error, `hub.SetError` and
return; on success, `hub.SetContent(base, html)`. -/
def onChange (renderRes : String × Option String) (baseName : String)
    (st : HubState) : HubState :=
  match renderRes.2 with
  | some e => setError st e
  | none => setContent st baseName renderRes.1

/-- The initial render in `main`: a render error is only logged as a warning,
and `hub.SetContent(base, html)` is called unconditionally with whatever
HTML `Render` returned. -/
def mainStartup (renderRes : String × Option String) (baseName : String)
    (st : HubState) : HubState :=
  setContent st baseName renderRes.1

/-- The debounce timer semantics of `Watcher.debounce` (`watcher.go:73-82`)
over a discrete millisecond timeline. The first argument is the pending
timer deadline (if any); the list holds the times of successive write
events, in order. Each event stops the pending timer if it has not yet
fired (event time before the deadline) and arms a fresh timer 100ms out;
a deadline that passes before the next event fires the callback. The
result is the list of times at which the callback runs. -/
def fireTimes : Option Nat → List Nat → List Nat
  | none, [] => []
  | some d, [] => [d]
  | none, t :: ts => fireTimes (some (t + 100)) ts
  | some d, t :: ts =>
    if d ≤ t then d :: fireTimes (some (t + 100)) ts
    else fireTimes (some (t + 100)) ts

/-- Callback invocation times produced by a burst of write events starting
with no timer pending. -/
def debounceFires (ts : List Nat) : List Nat :=
  fireTimes none ts

/-- The time of the last event of a nonempty burst `t :: ts`. -/
def lastEvent : Nat → List Nat → Nat
  | t, [] => t
  | _, t1 :: ts => lastEvent t1 ts

/-- The class of a filesystem event the watch loop reacts to
(`watcher.go:43-56`): a `Write`-bit event or a `Remove`-bit event. -/
inductive FsEventKind where
  | write
  | remove
deriving DecidableEq, Repr

/-- The state of one run of the watch goroutine and its debounce timer:
`clock` is the time at which the loop goroutine is next free (it blocks
100ms inside the `Remove` branch), `pending` the deadline of the armed
`time.AfterFunc` timer, `fired` the callback invocation times so far. -/
structure WatchRun where
  clock : Nat
  pending : Option Nat
  fired : List Nat
deriving DecidableEq, Repr

/-- `Watcher.debounce` called at time `s` (`watcher.go:73-82`): a pending
timer whose deadline has already passed has invoked the callback (recorded
in `fired`; `Stop` is a no-op on it), a pending timer whose deadline is
still ahead is cancelled, and in either case a fresh timer is armed for
`s + 100`; the loop is free again at `s`. -/
def debounceRun (r : WatchRun) (s : Nat) : WatchRun :=
  match r.pending with
  | none => ⟨s, some (s + 100), r.fired⟩
  | some d =>
    if d ≤ s then ⟨s, some (s + 100), r.fired ++ [d]⟩
    else ⟨s, some (s + 100), r.fired⟩

/-- Processing of one delivered event (`watcher.go:43-56`) by the watch
loop: a write event calls `debounce` as soon as the loop is free and the
event has arrived; a remove event first blocks the loop for the fixed
100ms re-watch delay (`time.Sleep`), re-adds the watch, and only then
calls `debounce`. -/
def stepEvent (r : WatchRun) (e : Nat × FsEventKind) : WatchRun :=
  match e.2 with
  | .write => debounceRun r (max e.1 r.clock)
  | .remove => debounceRun r (max e.1 r.clock + 100)

/-- After the loop has processed its events, the still-pending timer is
never stopped by `Watcher.Close` (`watcher.go:84-90` touches only `done`
and the fsnotify watcher), so it fires at its deadline. -/
def flushPending (r : WatchRun) : List Nat :=
  match r.pending with
  | none => r.fired
  | some d => r.fired ++ [d]

/-- All callback invocation times of a watch whose subscription delivered
the given (time, kind) events and whose `Close` happens at time `tc`:
closing releases the subscription and stops the loop, so only events
delivered strictly before `tc` are ever processed (maximal schedule: the
loop drains everything already queued), but processing — including a
remove event's 100ms delay — and the armed timer run to completion. -/
def watchFires (events : List (Nat × FsEventKind)) (tc : Nat) : List Nat :=
  flushPending ((events.filter (fun e => e.1 < tc)).foldl stepEvent ⟨0, none, []⟩)

/-- The writer goroutine of `handleWebSocket` (`server.go:138-149`):
`for message := range client.send` drains the channel in FIFO order and
writes each message; `ok i` tells whether the `i`-th `WriteMessage`
succeeds; the loop returns on the first write error. The result is the
sequence of messages actually written to the transport, in order. -/
def drainWrites : List Message → (Nat → Bool) → Nat → List Message
  | [], _, _ => []
  | m :: ms, ok, i => if ok i then m :: drainWrites ms ok (i + 1) else []

/-- A call to one of the Hub's two content-storing methods. -/
inductive HubCall where
  | setMsgContent (filename html : String)
  | setMsgError (e : String)
deriving DecidableEq, Repr

/-- The `Message` a call stores into `h.current`. -/
def callMessage : HubCall → Message
  | .setMsgContent f h => ⟨f, h, ""⟩
  | .setMsgError e => ⟨"", "", e⟩

/-- Execute one Hub call. -/
def applyCall (st : HubState) : HubCall → HubState
  | .setMsgContent f h => setContent st f h
  | .setMsgError e => setError st e

/-- Execute a sequence of Hub calls in order. -/
def runCalls (st : HubState) (cs : List HubCall) : HubState :=
  cs.foldl applyCall st

/-! ### Helper lemmas about queue lookup and update -/

lemma lookupQ_updateQ_self (qs : List (Nat × CState)) (c : Nat) (f : CState → CState) :
    lookupQ (updateQ qs c f) c = (lookupQ qs c).map f := by
  induction qs with
  | nil => rfl
  | cons p ps ih =>
    by_cases h : p.1 = c
    · simp [lookupQ, updateQ, h]
    · simp [lookupQ, updateQ, h, ih]

lemma lookupQ_updateQ_other (qs : List (Nat × CState)) (c c' : Nat) (f : CState → CState)
    (h : c ≠ c') : lookupQ (updateQ qs c' f) c = lookupQ qs c := by
  induction qs with
  | nil => rfl
  | cons p ps ih =>
    by_cases hp : p.1 = c'
    · have : ¬ (c' = c) := fun he => h he.symm
      simp [lookupQ, updateQ, hp, this, ih]
    · simp [lookupQ, updateQ, hp, ih]

lemma lookupQ_append_right (qs : List (Nat × CState)) (c : Nat) (q : CState)
    (h : lookupQ qs c = none) : lookupQ (qs ++ [(c, q)]) c = some q := by
  induction qs with
  | nil => simp [lookupQ]
  | cons p ps ih =>
    by_cases hp : p.1 = c
    · simp [lookupQ, hp] at h
    · simp [lookupQ, hp] at h ⊢
      exact ih h

lemma lookupQ_append_left (qs : List (Nat × CState)) (c c' : Nat) (q q' : CState)
    (h : lookupQ qs c = some q) : lookupQ (qs ++ [(c', q')]) c = some q := by
  induction qs with
  | nil => simp [lookupQ] at h
  | cons p ps ih =>
    by_cases hp : p.1 = c
    · simp [lookupQ, hp] at h ⊢
      exact h
    · simp [lookupQ, hp] at h ⊢
      exact ih h

/-! ### Helper lemmas about one broadcast step -/

lemma sendOrEvict_current (st : HubState) (m : Message) (c : Nat) :
    (sendOrEvict st m c).current = st.current := by
  unfold sendOrEvict
  cases lookupQ st.queues c with
  | none => rfl
  | some q =>
    by_cases h : q.buf.length < q.cap <;> simp [h]

lemma sendOrEvict_mem_other (st : HubState) (m : Message) (c c' : Nat) (h : c ≠ c') :
    (c ∈ (sendOrEvict st m c').members ↔ c ∈ st.members) := by
  unfold sendOrEvict
  cases lookupQ st.queues c' with
  | none => rfl
  | some q =>
    by_cases hf : q.buf.length < q.cap
    · simp [hf]
    · simp [hf]
      exact List.mem_erase_of_ne h

lemma sendOrEvict_lookup_other (st : HubState) (m : Message) (c c' : Nat) (h : c ≠ c') :
    lookupQ (sendOrEvict st m c').queues c = lookupQ st.queues c := by
  unfold sendOrEvict
  cases lookupQ st.queues c' with
  | none => rfl
  | some q =>
    by_cases hf : q.buf.length < q.cap
    · simp [hf, lookupQ_updateQ_other _ _ _ _ h]
    · simp [hf, lookupQ_updateQ_other _ _ _ _ h]

lemma sendOrEvict_not_mem (st : HubState) (m : Message) (c c' : Nat)
    (h : c ∉ st.members) : c ∉ (sendOrEvict st m c').members := by
  unfold sendOrEvict
  cases lookupQ st.queues c' with
  | none => exact h
  | some q =>
    by_cases hf : q.buf.length < q.cap
    · simpa [hf] using h
    · simp only [hf, if_false]
      intro hmem
      exact h (List.mem_of_mem_erase hmem)

/-- Folding the broadcast loop over clients other than `c` leaves `c`'s
membership and channel state alone. -/
lemma foldl_sendOrEvict_other (L : List Nat) (st : HubState) (m : Message) (c : Nat)
    (h : c ∉ L) :
    ((c ∈ (L.foldl (fun s x => sendOrEvict s m x) st).members) ↔ c ∈ st.members) ∧
    lookupQ (L.foldl (fun s x => sendOrEvict s m x) st).queues c = lookupQ st.queues c := by
  induction L generalizing st with
  | nil => exact ⟨Iff.rfl, rfl⟩
  | cons x xs ih =>
    have hx : c ≠ x := fun he => h (he ▸ List.mem_cons_self x xs)
    have hxs : c ∉ xs := fun hm => h (List.mem_cons_of_mem x hm)
    have := ih (sendOrEvict st m x) hxs
    refine ⟨?_, ?_⟩
    · rw [List.foldl_cons]
      exact this.1.trans (sendOrEvict_mem_other st m c x hx)
    · rw [List.foldl_cons, this.2, sendOrEvict_lookup_other st m c x hx]

lemma foldl_sendOrEvict_not_mem (L : List Nat) (st : HubState) (m : Message) (c : Nat)
    (h : c ∉ st.members) :
    c ∉ (L.foldl (fun s x => sendOrEvict s m x) st).members := by
  induction L generalizing st with
  | nil => exact h
  | cons x xs ih =>
    exact ih (sendOrEvict st m x) (sendOrEvict_not_mem st m c x h)

lemma hubBroadcast_current (st : HubState) (m : Message) :
    (hubBroadcast st m).current = st.current := by
  unfold hubBroadcast
  generalize st.members = L
  induction L generalizing st with
  | nil => rfl
  | cons x xs ih =>
    rw [List.foldl_cons, ih (sendOrEvict st m x), sendOrEvict_current]

lemma sendOrEvict_members_sublist (st : HubState) (m : Message) (c' : Nat) :
    (sendOrEvict st m c').members.Sublist st.members := by
  unfold sendOrEvict
  cases lookupQ st.queues c' with
  | none => exact List.Sublist.refl _
  | some q =>
    by_cases hf : q.buf.length < q.cap
    · simp [hf]
    · simp only [hf, if_false]
      exact List.erase_sublist _ _

lemma foldl_sendOrEvict_sublist (L : List Nat) (st : HubState) (m : Message) :
    (L.foldl (fun s x => sendOrEvict s m x) st).members.Sublist st.members := by
  induction L generalizing st with
  | nil => exact List.Sublist.refl _
  | cons x xs ih =>
    exact (ih (sendOrEvict st m x)).trans (sendOrEvict_members_sublist st m x)

/-- Full characterisation of one broadcast, per client: a member whose
channel has room keeps its membership and receives the message; a member
whose channel is full is closed and evicted. -/
lemma hubBroadcast_char (st : HubState) (m : Message) (c : Nat) (q : CState)
    (hnd : st.members.Nodup) (hc : c ∈ st.members)
    (hq : lookupQ st.queues c = some q) :
    (q.buf.length < q.cap →
       c ∈ (hubBroadcast st m).members ∧
       lookupQ (hubBroadcast st m).queues c = some (enqueueMsg q m)) ∧
    (¬ q.buf.length < q.cap →
       c ∉ (hubBroadcast st m).members ∧
       lookupQ (hubBroadcast st m).queues c = some (closeQueue q)) := by
  obtain ⟨L1, L2, hsplit⟩ := List.append_of_mem hc
  have hnd' : (L1 ++ c :: L2).Nodup := hsplit ▸ hnd
  rw [List.nodup_append] at hnd'
  obtain ⟨hnd1, hnd2, hdisj⟩ := hnd'
  have hcL1 : c ∉ L1 := fun hm => hdisj hm (List.mem_cons_self c L2)
  have hcL2 : c ∉ L2 := (List.nodup_cons.mp hnd2).1
  have hfold : hubBroadcast st m
      = L2.foldl (fun s x => sendOrEvict s m x)
          (sendOrEvict (L1.foldl (fun s x => sendOrEvict s m x) st) m c) := by
    unfold hubBroadcast
    rw [hsplit, List.foldl_append, List.foldl_cons]
  have h1 := foldl_sendOrEvict_other L1 st m c hcL1
  set s1 := L1.foldl (fun s x => sendOrEvict s m x) st with hs1
  have hmem1 : c ∈ s1.members := h1.1.mpr hc
  have hq1 : lookupQ s1.queues c = some q := h1.2.trans hq
  have hnds1 : s1.members.Nodup := (foldl_sendOrEvict_sublist L1 st m).nodup hnd
  constructor
  · intro hroom
    have hstep : sendOrEvict s1 m c
        = { s1 with queues := updateQ s1.queues c (fun q0 => enqueueMsg q0 m) } := by
      unfold sendOrEvict
      rw [hq1]
      simp [hroom]
    rw [hfold, hstep]
    have h2 := foldl_sendOrEvict_other L2
      { s1 with queues := updateQ s1.queues c (fun q0 => enqueueMsg q0 m) } m c hcL2
    refine ⟨h2.1.mpr hmem1, h2.2.trans ?_⟩
    simp [lookupQ_updateQ_self, hq1]
  · intro hfull
    have hstep : sendOrEvict s1 m c
        = { s1 with members := s1.members.erase c,
                    queues := updateQ s1.queues c closeQueue } := by
      unfold sendOrEvict
      rw [hq1]
      simp [hfull]
    rw [hfold, hstep]
    have hout : c ∉ s1.members.erase c := by
      intro hin
      exact ((hnds1.mem_erase_iff).mp hin).1 rfl
    refine ⟨foldl_sendOrEvict_not_mem L2 _ m c hout, ?_⟩
    have h2 := foldl_sendOrEvict_other L2
      { s1 with members := s1.members.erase c,
                queues := updateQ s1.queues c closeQueue } m c hcL2
    refine h2.2.trans ?_
    simp [lookupQ_updateQ_self, hq1]

/-! ### Helper lemmas about the debounce timer -/

/-- Within a burst whose consecutive gaps are all below the 100ms window,
each event cancels the pending timer before it can fire, so the only
firing is 100ms after the last event. -/
lemma fireTimes_chain (t : Nat) (ts : List Nat)
    (h : List.Chain (fun a b => a ≤ b ∧ b < a + 100) t ts) :
    fireTimes (some (t + 100)) ts = [lastEvent t ts + 100] := by
  induction ts generalizing t with
  | nil => rfl
  | cons t1 rest ih =>
    rw [List.chain_cons] at h
    obtain ⟨⟨hle, hlt⟩, hchain⟩ := h
    have hnf : ¬ (t + 100 ≤ t1) := by omega
    simp only [fireTimes, hnf, if_false, lastEvent]
    exact ih t1 hchain

/-- In a sorted burst every event time is at most the last one. -/
lemma le_lastEvent (t : Nat) (ts : List Nat)
    (h : List.Chain (fun a b => a ≤ b ∧ b < a + 100) t ts) :
    ∀ u ∈ t :: ts, u ≤ lastEvent t ts := by
  induction ts generalizing t with
  | nil =>
    intro u hu
    simp only [List.mem_singleton] at hu
    simp [lastEvent, hu]
  | cons t1 rest ih =>
    rw [List.chain_cons] at h
    obtain ⟨⟨hle, _⟩, hchain⟩ := h
    intro u hu
    rcases List.mem_cons.mp hu with rfl | hu'
    · exact le_trans hle
        (by simpa [lastEvent] using ih t1 hchain t1 (List.mem_cons_self _ _))
    · simpa [lastEvent] using ih t1 hchain u hu'

/-- Filtering a list twice with the same test gives the once-filtered
list. -/
lemma filter_idem {α : Type} (p : α → Bool) (l : List α) :
    (l.filter p).filter p = l.filter p := by
  induction l with
  | nil => rfl
  | cons a l ih =>
    by_cases h : p a
    · simp [List.filter_cons, h, ih]
    · simp [List.filter_cons, h, ih]

/-- Invariant of the watch loop over write-only events that all arrive
before the close time: the loop is free before close, every recorded
callback invocation happened before close, and the armed timer's deadline
is below close time plus the 100ms window. -/
lemma writeRun_invariant (l : List (Nat × FsEventKind)) (r : WatchRun) (tc : Nat)
    (hw : ∀ e ∈ l, e.2 = FsEventKind.write)
    (ht : ∀ e ∈ l, e.1 < tc)
    (hcl : r.clock < tc)
    (hf : ∀ f ∈ r.fired, f < tc)
    (hp : ∀ d, r.pending = some d → d < tc + 100) :
    ((l.foldl stepEvent r).clock < tc) ∧
    (∀ f ∈ (l.foldl stepEvent r).fired, f < tc) ∧
    (∀ d, (l.foldl stepEvent r).pending = some d → d < tc + 100) := by
  induction l generalizing r with
  | nil => exact ⟨hcl, hf, hp⟩
  | cons e rest ih =>
    obtain ⟨t, k⟩ := e
    have hk : k = FsEventKind.write := hw (t, k) (List.mem_cons_self _ _)
    subst hk
    have htt : t < tc := ht (t, FsEventKind.write) (List.mem_cons_self _ _)
    rw [List.foldl_cons]
    have hs : max t r.clock < tc := by omega
    have hstep : stepEvent r (t, FsEventKind.write) = debounceRun r (max t r.clock) := rfl
    refine ih (stepEvent r (t, FsEventKind.write))
      (fun e he => hw e (List.mem_cons_of_mem _ he))
      (fun e he => ht e (List.mem_cons_of_mem _ he)) ?_ ?_ ?_
    · rw [hstep]
      unfold debounceRun
      cases r.pending with
      | none => exact hs
      | some d =>
        by_cases hd : d ≤ max t r.clock <;> simp [hd, hs]
    · rw [hstep]
      unfold debounceRun
      cases hpd : r.pending with
      | none => exact hf
      | some d =>
        by_cases hd : d ≤ max t r.clock
        · simp only [hd, if_true]
          intro f hfm
          rcases List.mem_append.mp hfm with hfm | hfm
          · exact hf f hfm
          · simp only [List.mem_singleton] at hfm
            omega
        · simp only [hd, if_false]
          exact hf
    · rw [hstep]
      unfold debounceRun
      cases r.pending with
      | none =>
        intro d hd
        simp only [Option.some_inj] at hd
        omega
      | some d0 =>
        by_cases hd : d0 ≤ max t r.clock <;>
          · simp only [hd, if_true, if_false]
            intro d hdd
            simp only [Option.some_inj] at hdd
            omega

/-- Bound on the final invocation list: when every recorded invocation is
before close and the armed deadline below close plus the window, all
invocations are below close plus the window and at most one is after
close. -/
lemma flush_bound (r : WatchRun) (tc : Nat)
    (hf : ∀ f ∈ r.fired, f < tc)
    (hp : ∀ d, r.pending = some d → d < tc + 100) :
    ((flushPending r).all (fun f => f < tc + 100) = true) ∧
    ((flushPending r).filter (fun f => tc < f)).length ≤ 1 := by
  have hnil : r.fired.filter (fun f => tc < f) = [] := by
    rw [List.filter_eq_nil_iff]
    intro f hfm
    have := hf f hfm
    simp only [decide_eq_true_eq]
    omega
  unfold flushPending
  cases hpd : r.pending with
  | none =>
    refine ⟨?_, ?_⟩
    · rw [List.all_eq_true]
      intro f hfm
      have := hf f hfm
      simp only [decide_eq_true_eq]
      omega
    · rw [hnil]
      simp
  | some d =>
    have hd := hp d hpd
    refine ⟨?_, ?_⟩
    · rw [List.all_eq_true]
      intro f hfm
      rcases List.mem_append.mp hfm with hfm | hfm
      · have := hf f hfm
        simp only [decide_eq_true_eq]
        omega
      · simp only [List.mem_singleton] at hfm
        simp only [decide_eq_true_eq]
        omega
    · rw [List.filter_append, hnil, List.nil_append, List.filter]
      split <;> simp

/-! ### Helper lemmas about the writer loop -/

lemma drainWrites_eq_take (ms : List Message) (ok : Nat → Bool) (i : Nat) :
    ∃ j, drainWrites ms ok i = ms.take j := by
  induction ms generalizing i with
  | nil => exact ⟨0, rfl⟩
  | cons m rest ih =>
    by_cases h : ok i
    · obtain ⟨j, hj⟩ := ih (i + 1)
      exact ⟨j + 1, by simp [drainWrites, h, hj]⟩
    · exact ⟨0, by simp [drainWrites, h]⟩

lemma drainWrites_all_ok (ms : List Message) (ok : Nat → Bool) (i : Nat)
    (h : ∀ j, ok j = true) : drainWrites ms ok i = ms := by
  induction ms generalizing i with
  | nil => rfl
  | cons m rest ih => simp [drainWrites, h i, ih (i + 1)]

lemma drainWrites_take (ms : List Message) (ok : Nat → Bool) (k j : Nat)
    (hok : ∀ i, i < j → ok (k + i) = true) (hj : ok (k + j) = false) :
    drainWrites ms ok k = ms.take j := by
  induction ms generalizing k j with
  | nil => simp [drainWrites]
  | cons m rest ih =>
    cases j with
    | zero =>
      have h0 : ok k = false := by simpa using hj
      simp [drainWrites, h0]
    | succ j' =>
      have h0 : ok k = true := by simpa using hok 0 (Nat.succ_pos j')
      simp only [drainWrites, h0, if_true, List.take]
      have harg : ∀ i, i < j' → ok (k + 1 + i) = true := by
        intro i hi
        have he : k + 1 + i = k + (i + 1) := by omega
        rw [he]
        exact hok (i + 1) (by omega)
      have hend : ok (k + 1 + j') = false := by
        have he : k + 1 + j' = k + (j' + 1) := by omega
        rw [he]
        exact hj
      rw [ih (k + 1) j' harg hend]

/-! ### Helper lemmas about the renderer and registration -/

lemma rendererRender_error_fst (rr : Except String String)
    (conv : String → Except String String)
    (h : (rendererRender rr conv).2.isSome = true) :
    (rendererRender rr conv).1 = "" := by
  cases rr with
  | error e => rfl
  | ok content =>
    unfold rendererRender at h ⊢
    cases hc : conv content with
    | error e => simp [hc]
    | ok ho => simp [hc] at h

lemma register_fresh_lookup (st : HubState) (c : Nat)
    (h : lookupQ st.queues c = none) :
    lookupQ (hubRegister (newClient st c) c).queues c
      = some ⟨256, [st.current], false, 0⟩ := by
  unfold hubRegister newClient
  simp only
  rw [lookupQ_updateQ_self, lookupQ_append_right st.queues c _ h]
  rfl

lemma register_other_lookup (st : HubState) (c c2 : Nat) (q2 : CState)
    (hne : c2 ≠ c) (hq2 : lookupQ st.queues c2 = some q2) :
    lookupQ (hubRegister (newClient st c) c).queues c2 = some q2 := by
  unfold hubRegister newClient
  simp only
  rw [lookupQ_updateQ_other _ _ _ _ hne, lookupQ_append_left _ _ _ _ _ hq2]

lemma applyCall_current (st : HubState) (call : HubCall) :
    (applyCall st call).current = callMessage call := by
  cases call with
  | setMsgContent f h =>
    show (setContent st f h).current = _
    unfold setContent
    rw [hubBroadcast_current]
    rfl
  | setMsgError e =>
    show (setError st e).current = _
    unfold setError
    rw [hubBroadcast_current]
    rfl

lemma runCalls_append_last (st : HubState) (cs : List HubCall) (l : HubCall) :
    (runCalls st (cs ++ [l])).current = callMessage l := by
  unfold runCalls
  rw [List.foldl_append, List.foldl_cons, List.foldl_nil]
  exact applyCall_current _ l

lemma hubUnregister_not_mem (st : HubState) (c : Nat) (h : c ∉ st.members) :
    hubUnregister st c = st := by
  unfold hubUnregister
  rw [if_neg h]

/-! ### Claim theorems -/

/-- C1: during a broadcast the Hub visits every client in the set and
attempts a non-blocking enqueue: a client with room in its outbound queue
stays registered and receives the message at the back of its queue, while
a client whose queue is full is closed and removed from the client set.
The broadcast (a total function on hub states) never waits on a slow
client. -/
theorem broadcast_delivers_or_evicts (st : HubState) (m : Message) (c : Nat)
    (q : CState) (hnd : st.members.Nodup) (hc : c ∈ st.members)
    (hq : lookupQ st.queues c = some q) :
    (q.buf.length < q.cap →
       c ∈ (hubBroadcast st m).members ∧
       lookupQ (hubBroadcast st m).queues c = some (enqueueMsg q m)) ∧
    (¬ q.buf.length < q.cap →
       c ∉ (hubBroadcast st m).members ∧
       lookupQ (hubBroadcast st m).queues c = some (closeQueue q)) :=
  hubBroadcast_char st m c q hnd hc hq

/-- Witness for C1: in a hub with client 0 (room in its queue) and client 1
(queue full at capacity 1), broadcasting delivers to client 0 and evicts
and closes client 1. -/
theorem broadcast_delivers_or_evicts_witness :
    (0 ∈ (hubBroadcast ⟨[0, 1], [(0, ⟨2, [], false, 0⟩),
          (1, ⟨1, [⟨"a", "b", ""⟩], false, 0⟩)], ⟨"", "", ""⟩⟩
          ⟨"f.md", "<p>x</p>", ""⟩).members ∧
     lookupQ (hubBroadcast ⟨[0, 1], [(0, ⟨2, [], false, 0⟩),
          (1, ⟨1, [⟨"a", "b", ""⟩], false, 0⟩)], ⟨"", "", ""⟩⟩
          ⟨"f.md", "<p>x</p>", ""⟩).queues 0
        = some (enqueueMsg ⟨2, [], false, 0⟩ ⟨"f.md", "<p>x</p>", ""⟩)) ∧
    (1 ∉ (hubBroadcast ⟨[0, 1], [(0, ⟨2, [], false, 0⟩),
          (1, ⟨1, [⟨"a", "b", ""⟩], false, 0⟩)], ⟨"", "", ""⟩⟩
          ⟨"f.md", "<p>x</p>", ""⟩).members ∧
     lookupQ (hubBroadcast ⟨[0, 1], [(0, ⟨2, [], false, 0⟩),
          (1, ⟨1, [⟨"a", "b", ""⟩], false, 0⟩)], ⟨"", "", ""⟩⟩
          ⟨"f.md", "<p>x</p>", ""⟩).queues 1
        = some (closeQueue ⟨1, [⟨"a", "b", ""⟩], false, 0⟩)) :=
  ⟨(broadcast_delivers_or_evicts
      ⟨[0, 1], [(0, ⟨2, [], false, 0⟩), (1, ⟨1, [⟨"a", "b", ""⟩], false, 0⟩)],
        ⟨"", "", ""⟩⟩ ⟨"f.md", "<p>x</p>", ""⟩ 0 ⟨2, [], false, 0⟩
      (by decide) (by decide) rfl).1 (by decide),
   (broadcast_delivers_or_evicts
      ⟨[0, 1], [(0, ⟨2, [], false, 0⟩), (1, ⟨1, [⟨"a", "b", ""⟩], false, 0⟩)],
        ⟨"", "", ""⟩⟩ ⟨"f.md", "<p>x</p>", ""⟩ 1 ⟨1, [⟨"a", "b", ""⟩], false, 0⟩
      (by decide) (by decide) rfl).2 (by decide)⟩

/-- C2 counterexample: with one registered client whose queue is empty and a
previously rendered current message, a failing live re-render replaces the
Hub's current content with an error-only message and broadcasts it to the
client's queue — contradicting "content unchanged and no message of any
kind is broadcast". -/
theorem onchange_failure_counterexample :
    (onChange ("", some "boom") "doc.md"
        ⟨[0], [(0, ⟨256, [], false, 0⟩)], ⟨"doc.md", "<p>ok</p>", ""⟩⟩).current
      ≠ (⟨"doc.md", "<p>ok</p>", ""⟩ : Message) ∧
    lookupQ (onChange ("", some "boom") "doc.md"
        ⟨[0], [(0, ⟨256, [], false, 0⟩)], ⟨"doc.md", "<p>ok</p>", ""⟩⟩).queues 0
      = some ⟨256, [⟨"", "", "boom"⟩], false, 0⟩ :=
  ⟨by decide, by decide⟩

/-- C2 amended: when a live re-render fails, `onChange` calls `Hub.SetError`:
the Hub's current message is replaced by an error-only message (filename
and HTML cleared) and that error message — not a content update — is
broadcast to the clients. -/
theorem onchange_failure_broadcasts_error (htmlv e base : String) (st : HubState) :
    onChange (htmlv, some e) base st = setError st e ∧
    (onChange (htmlv, some e) base st).current = ⟨"", "", e⟩ := by
  refine ⟨rfl, ?_⟩
  show (setError st e).current = _
  unfold setError
  rw [hubBroadcast_current]

/-- C3: a nonempty burst of write events whose consecutive gaps are all
below the 100ms quiescence window invokes the callback exactly once, at
100ms after the last event — strictly after every event of the burst;
each event resets the single pending timer instead of stacking one. -/
theorem debounce_fires_once_after_quiescence (t : Nat) (ts : List Nat)
    (h : List.Chain (fun a b => a ≤ b ∧ b < a + 100) t ts) :
    debounceFires (t :: ts) = [lastEvent t ts + 100] ∧
    (t :: ts).all (fun u => u < lastEvent t ts + 100) = true := by
  constructor
  · show fireTimes none (t :: ts) = _
    simp only [fireTimes]
    exact fireTimes_chain t ts h
  · rw [List.all_eq_true]
    intro u hu
    have := le_lastEvent t ts h u hu
    simp only [decide_eq_true_eq]
    omega

/-- Witness for C3: three write events at 0ms, 50ms and 90ms produce exactly
one callback invocation, at 190ms. -/
theorem debounce_fires_once_after_quiescence_witness :
    debounceFires [0, 50, 90] = [190] ∧
    ([0, 50, 90] : List Nat).all (fun u => u < 190) = true :=
  debounce_fires_once_after_quiescence 0 [50, 90]
    (List.Chain.cons (by omega) (List.Chain.cons (by omega) List.Chain.nil))

/-- C4 counterexample: one write event at 0ms and `Close` at 50ms: `Close`
stops neither the pending `time.AfterFunc` timer, so the callback still
fires at 100ms, after the close — contradicting "the onChange callback is
never invoked again". -/
theorem watch_close_still_fires_counterexample :
    watchFires [(0, FsEventKind.write)] 50 = [100] ∧ 50 < 100 :=
  ⟨rfl, by decide⟩

/-- C4 amended: `Close` releases the subscription and stops the event loop,
so events delivered at or after close never invoke the callback; but
`Close` stops neither the pending debounce timer nor a remove event's
100ms re-watch delay. With only write-class events pending, at most one
callback invocation occurs after close, strictly within 100ms of it;
a remove event received just before close, however, re-arms the timer
after its delay and can invoke the callback a second time, more than
100ms after close (write at 0ms, remove at 5ms, close at 50ms: the
callback runs at 100ms and again at 205ms). -/
theorem close_latent_timer_and_remove_rearm
    (events : List (Nat × FsEventKind)) (tc : Nat) :
    watchFires events tc = watchFires (events.filter (fun e => e.1 < tc)) tc ∧
    ((∀ e ∈ events, e.2 = FsEventKind.write) →
       ((watchFires events tc).all (fun f => f < tc + 100) = true ∧
        ((watchFires events tc).filter (fun f => tc < f)).length ≤ 1)) ∧
    watchFires [(0, FsEventKind.write), (5, FsEventKind.remove)] 50
      = [100, 205] := by
  refine ⟨?_, ?_, rfl⟩
  · show _ = flushPending (((events.filter (fun e => e.1 < tc)).filter
      (fun e => e.1 < tc)).foldl stepEvent ⟨0, none, []⟩)
    rw [filter_idem]
    rfl
  · intro hw
    unfold watchFires
    cases hfl : events.filter (fun e => e.1 < tc) with
    | nil => simp [flushPending]
    | cons e0 rest =>
      have hmem : ∀ e ∈ e0 :: rest, e ∈ events.filter (fun e => e.1 < tc) := by
        intro e he
        rw [hfl]
        exact he
      have hwl : ∀ e ∈ e0 :: rest, e.2 = FsEventKind.write := fun e he =>
        hw e (List.mem_filter.mp (hmem e he)).1
      have htl : ∀ e ∈ e0 :: rest, e.1 < tc := by
        intro e he
        have := (List.mem_filter.mp (hmem e he)).2
        simpa using this
      have h0 : (0 : Nat) < tc :=
        lt_of_le_of_lt (Nat.zero_le _) (htl e0 (List.mem_cons_self _ _))
      have hinv := writeRun_invariant (e0 :: rest) ⟨0, none, []⟩ tc hwl htl h0
        (by intro f hfm; simp at hfm) (by intro d hd; simp at hd)
      exact flush_bound _ tc hinv.2.1 hinv.2.2

/-- Witness for C4's amended theorem: write events at 0ms and 10ms with
close at 50ms — every fire is below 150ms and at most one is after
close. -/
theorem close_latent_timer_and_remove_rearm_witness :
    ((watchFires [(0, FsEventKind.write), (10, FsEventKind.write)] 50).all
        (fun f => f < 150) = true) ∧
    ((watchFires [(0, FsEventKind.write), (10, FsEventKind.write)] 50).filter
        (fun f => 50 < f)).length ≤ 1 :=
  (close_latent_timer_and_remove_rearm
      [(0, FsEventKind.write), (10, FsEventKind.write)] 50).2.1 (by decide)

/-- C5 counterexample: when the initial render fails, `main` does not abort:
it stores the base filename with the empty HTML returned by the failed
render and broadcasts it to the already-connected client — a record with
empty rendered content is made visible, and no error reaches the caller. -/
theorem startup_failure_counterexample :
    (mainStartup ("", some "read failed") "README.md"
        ⟨[0], [(0, ⟨256, [], false, 0⟩)], ⟨"", "", ""⟩⟩).current
      = ⟨"README.md", "", ""⟩ ∧
    lookupQ (mainStartup ("", some "read failed") "README.md"
        ⟨[0], [(0, ⟨256, [], false, 0⟩)], ⟨"", "", ""⟩⟩).queues 0
      = some ⟨256, [⟨"README.md", "", ""⟩], false, 0⟩ :=
  ⟨by decide, by decide⟩

/-- C5 amended: if the initial render during startup fails, `main` merely
logs a warning and proceeds: it calls `SetContent` with the empty HTML the
failed `Render` returned, so the Hub's current content becomes the base
name with empty HTML and is broadcast; the registration is not aborted and
the error is not surfaced. -/
theorem startup_failure_warns_and_proceeds (rr : Except String String)
    (conv : String → Except String String) (base : String) (st : HubState)
    (h : (rendererRender rr conv).2.isSome = true) :
    mainStartup (rendererRender rr conv) base st = setContent st base "" ∧
    (mainStartup (rendererRender rr conv) base st).current = ⟨base, "", ""⟩ := by
  have he := rendererRender_error_fst rr conv h
  constructor
  · unfold mainStartup
    rw [he]
  · unfold mainStartup
    rw [he]
    show (setContent st base "").current = _
    unfold setContent
    rw [hubBroadcast_current]

/-- Witness for C5's amended theorem: a failing read on an empty hub. -/
theorem startup_failure_warns_and_proceeds_witness :
    mainStartup (rendererRender (Except.error "no such file") Except.ok)
        "README.md" ⟨[], [], ⟨"", "", ""⟩⟩
      = setContent ⟨[], [], ⟨"", "", ""⟩⟩ "README.md" "" ∧
    (mainStartup (rendererRender (Except.error "no such file") Except.ok)
        "README.md" ⟨[], [], ⟨"", "", ""⟩⟩).current
      = ⟨"README.md", "", ""⟩ :=
  startup_failure_warns_and_proceeds (Except.error "no such file") Except.ok
    "README.md" ⟨[], [], ⟨"", "", ""⟩⟩ (by decide)

/-- C6: registering a freshly created client adds it to the client set and
enqueues the current content snapshot onto that client's queue only; the
queue of every previously connected client is untouched by the connect
event. -/
theorem register_snapshot_to_new_client_only (st : HubState) (c c2 : Nat)
    (q2 : CState) (hfresh : lookupQ st.queues c = none) (hne : c2 ≠ c)
    (hq2 : lookupQ st.queues c2 = some q2) :
    c ∈ (hubRegister (newClient st c) c).members ∧
    lookupQ (hubRegister (newClient st c) c).queues c
      = some ⟨256, [st.current], false, 0⟩ ∧
    lookupQ (hubRegister (newClient st c) c).queues c2 = some q2 ∧
    (hubRegister (newClient st c) c).members = st.members ++ [c] := by
  refine ⟨?_, register_fresh_lookup st c hfresh,
    register_other_lookup st c c2 q2 hne hq2, rfl⟩
  show c ∈ st.members ++ [c]
  simp

/-- Witness for C6: client 0 connects to a hub already holding client 7;
client 0 gets the snapshot, client 7's queue is unchanged. -/
theorem register_snapshot_to_new_client_only_witness :
    0 ∈ (hubRegister (newClient ⟨[7], [(7, ⟨256, [⟨"x", "y", ""⟩], false, 0⟩)],
          ⟨"cur.md", "<h1>t</h1>", ""⟩⟩ 0) 0).members ∧
    lookupQ (hubRegister (newClient ⟨[7], [(7, ⟨256, [⟨"x", "y", ""⟩], false, 0⟩)],
          ⟨"cur.md", "<h1>t</h1>", ""⟩⟩ 0) 0).queues 0
      = some ⟨256, [⟨"cur.md", "<h1>t</h1>", ""⟩], false, 0⟩ ∧
    lookupQ (hubRegister (newClient ⟨[7], [(7, ⟨256, [⟨"x", "y", ""⟩], false, 0⟩)],
          ⟨"cur.md", "<h1>t</h1>", ""⟩⟩ 0) 0).queues 7
      = some ⟨256, [⟨"x", "y", ""⟩], false, 0⟩ ∧
    (hubRegister (newClient ⟨[7], [(7, ⟨256, [⟨"x", "y", ""⟩], false, 0⟩)],
          ⟨"cur.md", "<h1>t</h1>", ""⟩⟩ 0) 0).members = [7] ++ [0] :=
  register_snapshot_to_new_client_only
    ⟨[7], [(7, ⟨256, [⟨"x", "y", ""⟩], false, 0⟩)], ⟨"cur.md", "<h1>t</h1>", ""⟩⟩
    0 7 ⟨256, [⟨"x", "y", ""⟩], false, 0⟩ rfl (by decide) rfl

/-- C7: processing a disconnect closes the client's queue only if the client
is currently a member of the set: a member is removed and its queue closed
exactly once (a second disconnect for the same client changes nothing),
and a disconnect for a client that is not in the set is a no-op. -/
theorem unregister_closes_exactly_once (st : HubState) (c : Nat) (q : CState)
    (hnd : st.members.Nodup) (hq : lookupQ st.queues c = some q) :
    (c ∈ st.members →
       c ∉ (hubUnregister (hubUnregister st c) c).members ∧
       lookupQ (hubUnregister (hubUnregister st c) c).queues c
         = some (closeQueue q)) ∧
    (c ∉ st.members → hubUnregister st c = st) := by
  refine ⟨?_, hubUnregister_not_mem st c⟩
  intro hc
  have h1 : hubUnregister st c
      = { st with members := st.members.erase c,
                  queues := updateQ st.queues c closeQueue } := by
    unfold hubUnregister
    rw [if_pos hc]
  have hnot : c ∉ (hubUnregister st c).members := by
    rw [h1]
    intro hin
    exact (hnd.mem_erase_iff.mp hin).1 rfl
  rw [hubUnregister_not_mem _ c hnot]
  refine ⟨hnot, ?_⟩
  rw [h1]
  show lookupQ (updateQ st.queues c closeQueue) c = _
  rw [lookupQ_updateQ_self, hq]
  rfl

/-- Witness for C7: double disconnect of member 3 closes its queue once
(close count 1); disconnect of non-member 4 leaves the hub untouched. -/
theorem unregister_closes_exactly_once_witness :
    (3 ∉ (hubUnregister (hubUnregister
          ⟨[3], [(3, ⟨256, [], false, 0⟩)], ⟨"", "", ""⟩⟩ 3) 3).members ∧
     lookupQ (hubUnregister (hubUnregister
          ⟨[3], [(3, ⟨256, [], false, 0⟩)], ⟨"", "", ""⟩⟩ 3) 3).queues 3
       = some (closeQueue ⟨256, [], false, 0⟩)) ∧
    hubUnregister ⟨[], [(4, ⟨256, [], false, 0⟩)], ⟨"", "", ""⟩⟩ 4
      = ⟨[], [(4, ⟨256, [], false, 0⟩)], ⟨"", "", ""⟩⟩ :=
  ⟨(unregister_closes_exactly_once
      ⟨[3], [(3, ⟨256, [], false, 0⟩)], ⟨"", "", ""⟩⟩ 3 ⟨256, [], false, 0⟩
      (by decide) rfl).1 (by decide),
   (unregister_closes_exactly_once
      ⟨[], [(4, ⟨256, [], false, 0⟩)], ⟨"", "", ""⟩⟩ 4 ⟨256, [], false, 0⟩
      (by decide) rfl).2 (by decide)⟩

/-- C8: the outbound loop writes messages in exactly the FIFO order they
were enqueued: what it writes is always an initial segment (`take`) of the
queue contents; if every write succeeds the whole queue is written in
order, and if the `j`-th write is the first to fail, exactly the first `j`
messages were written, in order, and the loop terminates. -/
theorem outbound_loop_fifo (ms : List Message) (ok : Nat → Bool) :
    (∃ j, drainWrites ms ok 0 = ms.take j) ∧
    ((∀ j, ok j = true) → drainWrites ms ok 0 = ms) ∧
    (∀ j, (∀ i, i < j → ok i = true) → ok j = false →
       drainWrites ms ok 0 = ms.take j) := by
  refine ⟨drainWrites_eq_take ms ok 0, fun h => drainWrites_all_ok ms ok 0 h, ?_⟩
  intro j hok hj
  exact drainWrites_take ms ok 0 j (by simpa using hok) (by simpa using hj)

/-- Witness for C8: with all writes succeeding, a two-message queue is
written whole and in order. -/
theorem outbound_loop_fifo_witness :
    drainWrites [⟨"a", "1", ""⟩, ⟨"b", "2", ""⟩] (fun _ => true) 0
      = [⟨"a", "1", ""⟩, ⟨"b", "2", ""⟩] :=
  (outbound_loop_fifo [⟨"a", "1", ""⟩, ⟨"b", "2", ""⟩] (fun _ => true)).2.1
    (fun _ => rfl)

/-- C9: whenever `Renderer.Render` returns a non-nil error — whether the
file read or the markdown conversion failed — the HTML component of its
result is exactly the empty string. -/
theorem render_error_empty_html (rr : Except String String)
    (conv : String → Except String String)
    (h : (rendererRender rr conv).2.isSome = true) :
    (rendererRender rr conv).1 = "" :=
  rendererRender_error_fst rr conv h

/-- Witness for C9: a failed file read yields an error and empty HTML. -/
theorem render_error_empty_html_witness :
    (rendererRender (Except.error "open failed") Except.ok).1 = "" :=
  render_error_empty_html (Except.error "open failed") Except.ok (by decide)

/-- C10: the snapshot enqueued for a newly registered client is exactly the
message stored by the most recent `SetContent`/`SetError` call; when that
last call was `SetError`, the snapshot carries only the error text, with
empty filename and empty HTML, whatever `SetContent` stored before. -/
theorem snapshot_is_last_stored_message (st : HubState) (cs : List HubCall)
    (l : HubCall) (c : Nat)
    (hfresh : lookupQ (runCalls st (cs ++ [l])).queues c = none) :
    lookupQ (hubRegister (newClient (runCalls st (cs ++ [l])) c) c).queues c
      = some ⟨256, [callMessage l], false, 0⟩ ∧
    (∀ e, l = HubCall.setMsgError e → callMessage l = ⟨"", "", e⟩) := by
  constructor
  · rw [register_fresh_lookup (runCalls st (cs ++ [l])) c hfresh,
      runCalls_append_last]
  · rintro e rfl
    rfl

/-- Witness for C10: after `SetContent "doc.md" "<p>hi</p>"` followed by
`SetError "boom"`, a fresh client's snapshot is the error-only message. -/
theorem snapshot_is_last_stored_message_witness :
    lookupQ (hubRegister (newClient (runCalls ⟨[], [], ⟨"", "", ""⟩⟩
          ([HubCall.setMsgContent "doc.md" "<p>hi</p>"]
            ++ [HubCall.setMsgError "boom"])) 0) 0).queues 0
      = some ⟨256, [⟨"", "", "boom"⟩], false, 0⟩ :=
  (snapshot_is_last_stored_message ⟨[], [], ⟨"", "", ""⟩⟩
    [HubCall.setMsgContent "doc.md" "<p>hi</p>"] (HubCall.setMsgError "boom")
    0 (by decide)).1

end LiveMD
